import Mathlib

/-!
Shallow embedding of the bitcoin-app-scraper repository (Go), covering:

* the `Profile` data model (`internal/scraper/types.go`);
* the pure response-mapping parts of the API client
  (`ListProfiles`, `mapBrellaDetailToProfile`);
* the page-walking loop of `Scraper.ScrapeAllProfiles`
  (`internal/scraper/scraper.go`), with the HTTP calls abstracted as
  oracles (a positional list of page responses and a detail-fetch
  function), and errors carried in `Except`, mirroring Go's
  `(value, error)` returns;
* the LinkedIn enrichment matcher (`EnrichProfiles`,
  `findLinkedInCandidates`, the pure extraction part of `searchOnce`),
  with the web-search HTTP call abstracted as an oracle from a query
  string to the decoded result links.

Logging and sleeping (`log.Printf`, `time.Sleep`) have no observable
effect on the returned data and are not modelled.
-/

namespace Bitconf

/-- Profile mirrors `scraper.Profile` from `internal/scraper/types.go`. -/
structure Profile where
  ID : String
  Name : String
  Title : String
  Company : String
  Location : String
  LinkedInURL : String
  PossibleLinkedInURLs : List String
deriving Repr, DecidableEq

/-- strContainsSub models Go `strings.Contains s pat`: `pat` occurs as a
contiguous substring of `s` (character-level; the patterns used by the
repository are ASCII, where byte and character containment agree). -/
def strContainsSub (s pat : String) : Bool :=
  s.toList.tails.any (fun t => pat.toList.isPrefixOf t)

/-- goIsSpace models Go `unicode.IsSpace` on the Latin-1 range (the
ASCII whitespace characters plus NEL and NBSP); the rare non-Latin-1
Unicode White_Space code points are not modelled. -/
def goIsSpace (c : Char) : Bool :=
  c = ' ' || c = '\t' || c = '\n' ||
    c = (Char.ofNat 11) || c = (Char.ofNat 12) || c = '\r' ||
    c = (Char.ofNat 133) || c = (Char.ofNat 160)

/-- goTrimSpace models Go `strings.TrimSpace`: drop leading and trailing
whitespace. -/
def goTrimSpace (s : String) : String :=
  String.mk (((s.toList.dropWhile goIsSpace).reverse.dropWhile goIsSpace).reverse)

/-- goQuoteChar is one character's expansion inside Go `%q` string
formatting: backslash and double quote are escaped, the common control
characters get their mnemonic escapes. Other printable characters stand
for themselves (the model covers the printable range actually fed to
`%q` by this repository; `\x`-style escapes of unprintable characters
are not modelled). -/
def goQuoteChar (c : Char) : List Char :=
  if c = '\\' then ['\\', '\\']
  else if c = '\"' then ['\\', '\"']
  else if c = '\n' then ['\\', 'n']
  else if c = '\t' then ['\\', 't']
  else if c = '\r' then ['\\', 'r']
  else [c]

/-- goQuote models Go `fmt.Sprintf` with verb `%q` on a string: the
value surrounded by double quotes, with escaping as in `goQuoteChar`. -/
def goQuote (s : String) : String :=
  String.mk ('\"' :: (s.toList.flatMap goQuoteChar ++ ['\"']))

/-! ### API client: response mapping (src/unnamed/part_001, package scraper) -/

/-- ListItem is one element of `brellaAttendeesListResponse.Data`: the
attendees list endpoint is decoded only for the `id` field. -/
structure ListItem where
  id : String
deriving Repr, DecidableEq

/-- AttendeesListResponse mirrors `brellaAttendeesListResponse`. -/
structure AttendeesListResponse where
  data : List ListItem
deriving Repr, DecidableEq

/-- ListProfilesResult mirrors `scraper.ListProfilesResult`: one page of
profiles plus the pagination continuation flag. -/
structure ListProfilesResult where
  profiles : List Profile
  hasNext : Bool
deriving Repr, DecidableEq

/-- stubProfile is the `Profile{ID: item.ID}` literal built by
`ListProfiles`: only the identifier is populated. -/
def stubProfile (id : String) : Profile :=
  { ID := id, Name := "", Title := "", Company := "", Location := "",
    LinkedInURL := "", PossibleLinkedInURLs := [] }

/-- listProfilesResult is the pure tail of `Client.ListProfiles` after a
successfully decoded response body: items with an empty id are dropped
from the stub list, and `HasNext` is the heuristic comparison of the
returned item count with the requested page size (a Go `int`). -/
def listProfilesResult (resp : AttendeesListResponse) (pageSize : Int) :
    ListProfilesResult :=
  { profiles := (resp.data.filter (fun item => item.id != "")).map
      (fun item => stubProfile item.id),
    hasNext := (resp.data.length : Int) == pageSize }

/-- IncludedAttributes mirrors the `Attributes` of one entry of
`brellaAttendeeDetailResponse.Included`. -/
structure IncludedAttributes where
  firstName : String
  lastName : String
  companyTitle : String
  companyName : String
  linkedin : String
  twitter : String
  website : String
  timeZone : String
  companyCountries : List String
deriving Repr, DecidableEq

/-- IncludedEntry mirrors one entry of the `Included` side list of the
attendee detail response. -/
structure IncludedEntry where
  id : String
  type : String
  attributes : IncludedAttributes
deriving Repr, DecidableEq

/-- RelUserData mirrors `Data.Relationships.User.Data` of the attendee
detail response: the id/type reference to the related user record. -/
structure RelUserData where
  id : String
  type : String
deriving Repr, DecidableEq

/-- DetailData mirrors the `Data` part of the attendee detail response. -/
structure DetailData where
  id : String
  type : String
  userData : RelUserData
deriving Repr, DecidableEq

/-- AttendeeDetailResponse mirrors `brellaAttendeeDetailResponse`. -/
structure AttendeeDetailResponse where
  data : DetailData
  included : List IncludedEntry
deriving Repr, DecidableEq

/-- locationOfAttributes is the location derivation inside
`mapBrellaDetailToProfile`: company countries joined by a comma when
present, else the time zone when non-empty, else empty. -/
def locationOfAttributes (attrs : IncludedAttributes) : String :=
  if attrs.companyCountries.length > 0 then
    String.intercalate ", " attrs.companyCountries
  else if attrs.timeZone != "" then attrs.timeZone
  else ""

/-- fillProfileFromEntry is the body of the matching branch of the loop
in `mapBrellaDetailToProfile`: name joined from the trimmed first and
last names and trimmed again, plus title, company, location and the
backend-supplied LinkedIn URL. -/
def fillProfileFromEntry (base : Profile) (inc : IncludedEntry) : Profile :=
  { base with
    Name := goTrimSpace
      (String.intercalate " "
        [goTrimSpace inc.attributes.firstName, goTrimSpace inc.attributes.lastName]),
    Title := inc.attributes.companyTitle,
    Company := inc.attributes.companyName,
    Location := locationOfAttributes inc.attributes,
    LinkedInURL := inc.attributes.linkedin }

/-- mapBrellaDetailToProfile mirrors the Go function of the same name:
start from a Profile holding only the primary id; return it unchanged
when the referenced user id is empty or no included entry has type
`"user"` and the referenced id; otherwise fill the fields from the
first such entry (the Go loop breaks at the first match). -/
def mapBrellaDetailToProfile (resp : AttendeeDetailResponse) : Profile :=
  let base := stubProfile resp.data.id
  if resp.data.userData.id = "" then base
  else
    match resp.included.find?
        (fun inc => inc.type == "user" && inc.id == resp.data.userData.id) with
    | none => base
    | some inc => fillProfileFromEntry base inc

/-! ### Profile Walker (src/internal/scraper/scraper.go)

The two HTTP-backed client calls are abstracted as oracles: the
responses to successive `ListProfiles` calls are a positional list
(element `k` answers the fetch of page `k + 1`; the walk also stops
when the supplied responses are exhausted), and `GetAttendeeProfile`
is a function from an attendee id to a result. Oracle-level errors are
strings (Go `error` messages); the walker wraps them with the page or
attendee context exactly as the `fmt.Errorf` calls do. -/

/-- WalkError mirrors the two `fmt.Errorf` wrappings in
`ScrapeAllProfiles`: a listing failure carries the page number, a
detail failure the attendee id, each with the causing message. -/
inductive WalkError where
  | listing (page : Nat) (cause : String)
  | getting (attendeeId : String) (cause : String)
deriving Repr, DecidableEq

/-- fetchDetails is the inner loop of `ScrapeAllProfiles` over one
page's stubs: stubs with an empty id are skipped, otherwise the detail
oracle is called and a failure aborts with the wrapped error. -/
def fetchDetails (detailF : String → Except String Profile) :
    List Profile → Except WalkError (List Profile)
  | [] => .ok []
  | stub :: rest =>
    if stub.ID = "" then fetchDetails detailF rest
    else
      match detailF stub.ID with
      | .error e => .error (.getting stub.ID e)
      | .ok p =>
        match fetchDetails detailF rest with
        | .error e => .error e
        | .ok ps => .ok (p :: ps)

/-- fetchDetailCalls is the trace of attendee ids passed to the detail
oracle by `fetchDetails`, in call order (stopping, like the code, at
the first failing call). -/
def fetchDetailCalls (detailF : String → Except String Profile) :
    List Profile → List String
  | [] => []
  | stub :: rest =>
    if stub.ID = "" then fetchDetailCalls detailF rest
    else
      match detailF stub.ID with
      | .error _ => [stub.ID]
      | .ok _ => stub.ID :: fetchDetailCalls detailF rest

/-- walkPages is the page loop of `ScrapeAllProfiles`: starting from
the current page number, stop before fetching when the positive
`maxPages` ceiling is exceeded; a listing failure aborts with the
wrapped error; a page with an empty stub list stops the walk; otherwise
the page's stubs are expanded via `fetchDetails` and the walk continues
with the next page only when the continuation flag is set. `maxPages`
is a Go `int` (non-positive means unlimited). -/
def walkPages (detailF : String → Except String Profile) :
    List (Except String ListProfilesResult) → Nat → Int →
      Except WalkError (List Profile)
  | [], _, _ => .ok []
  | r :: rest, page, maxPages =>
    if 0 < maxPages ∧ maxPages < (page : Int) then .ok []
    else
      match r with
      | .error e => .error (.listing page e)
      | .ok res =>
        if res.profiles.isEmpty then .ok []
        else
          match fetchDetails detailF res.profiles with
          | .error e => .error e
          | .ok ps =>
            if res.hasNext then
              match walkPages detailF rest (page + 1) maxPages with
              | .error e => .error e
              | .ok more => .ok (ps ++ more)
            else .ok ps

/-- walkDetailCalls is the trace of attendee ids passed to the detail
oracle during `walkPages`, in call order. -/
def walkDetailCalls (detailF : String → Except String Profile) :
    List (Except String ListProfilesResult) → Nat → Int → List String
  | [], _, _ => []
  | r :: rest, page, maxPages =>
    if 0 < maxPages ∧ maxPages < (page : Int) then []
    else
      match r with
      | .error _ => []
      | .ok res =>
        if res.profiles.isEmpty then []
        else
          match fetchDetails detailF res.profiles with
          | .error _ => fetchDetailCalls detailF res.profiles
          | .ok _ =>
            if res.hasNext then
              fetchDetailCalls detailF res.profiles ++
                walkDetailCalls detailF rest (page + 1) maxPages
            else fetchDetailCalls detailF res.profiles

/-- scrapeAllProfiles adds the entry guard of `Scraper.ScrapeAllProfiles`
on the event id (the nil-client guard and the page-size and delay
defaulting concern only the HTTP layer, which the oracles absorb). -/
def scrapeAllProfiles (eventID : String)
    (detailF : String → Except String Profile)
    (responses : List (Except String ListProfilesResult)) (maxPages : Int) :
    Except WalkError (List Profile) :=
  if eventID = "" then .error (.listing 0 "event ID is empty")
  else walkPages detailF responses 1 maxPages

/-- pageFetchedProfiles is, for one page response, the expected
detail-expansion of its stubs: the detail result of every stub with a
non-empty id, in listing order (spec-side definition for the Walker
claims, stated for a total detail oracle). -/
def pageFetchedProfiles (detailF : String → Profile)
    (res : ListProfilesResult) : List Profile :=
  (res.profiles.filter (fun stub => stub.ID != "")).map
    (fun stub => detailF stub.ID)

/-- processedPages is the prefix of the page responses the walker
actually processes: it stops at the `maxPages` ceiling, at an empty
page, and after a page whose continuation flag is unset (spec-side
definition for the Walker claims). -/
def processedPages (maxPages : Int) :
    List ListProfilesResult → Nat → List ListProfilesResult
  | [], _ => []
  | res :: rest, page =>
    if 0 < maxPages ∧ maxPages < (page : Int) then []
    else if res.profiles.isEmpty then []
    else
      res ::
        (if res.hasNext then processedPages maxPages rest (page + 1) else [])

/-- firstDetailFailure is the first failing detail call over one page's
stubs, with empty-id stubs skipped (spec-side definition for the
fail-fast claim). -/
def firstDetailFailure (detailF : String → Except String Profile) :
    List Profile → Option WalkError
  | [] => none
  | stub :: rest =>
    if stub.ID = "" then firstDetailFailure detailF rest
    else
      match detailF stub.ID with
      | .error e => some (.getting stub.ID e)
      | .ok _ => firstDetailFailure detailF rest

/-- firstWalkFailure is the first failing fetch (list or detail) that
the walk encounters, scanning pages under the walker's own stop
conditions (spec-side definition for the fail-fast claim). -/
def firstWalkFailure (detailF : String → Except String Profile) :
    List (Except String ListProfilesResult) → Nat → Int → Option WalkError
  | [], _, _ => none
  | r :: rest, page, maxPages =>
    if 0 < maxPages ∧ maxPages < (page : Int) then none
    else
      match r with
      | .error e => some (.listing page e)
      | .ok res =>
        if res.profiles.isEmpty then none
        else
          match firstDetailFailure detailF res.profiles with
          | some e => some e
          | none =>
            if res.hasNext then
              firstWalkFailure detailF rest (page + 1) maxPages
            else none

/-! ### Enrichment Matcher (src/unnamed/part_001, package linkedin)

The web-search HTTP call of `searchOnce` is abstracted as an oracle
`rawF` from the query string to the decoded result links (the `Link`
fields of the response items); the pure extraction that `searchOnce`
performs on those links is `searchOnceCandidates` below. Transport,
status and decode failures of the search API are abstracted as a
`SearchError`. -/

/-- SearchError abstracts a Go `error` surfaced by the search layer
(transport failure, non-200 status, or JSON decode failure), carrying
its message. -/
structure SearchError where
  msg : String
deriving Repr, DecidableEq

/-- searchOnceParts is the accumulation loop of `searchOnce`: each
result link is trimmed, empty links are skipped, links containing
`linkedin.com/in/` go to the `personal` list and remaining links
containing `linkedin.com/` to the `other` list, both in input order. -/
def searchOnceParts : List String → List String × List String
  | [] => ([], [])
  | link :: rest =>
    let l := goTrimSpace link
    let acc := searchOnceParts rest
    if l = "" then acc
    else if strContainsSub l "linkedin.com/in/" then (l :: acc.1, acc.2)
    else if strContainsSub l "linkedin.com/" then (acc.1, l :: acc.2)
    else acc

/-- searchOnceCandidates is the pure extraction performed by
`searchOnce` on the decoded search-result links:
`append(personal, other...)`. -/
def searchOnceCandidates (links : List String) : List String :=
  (searchOnceParts links).1 ++ (searchOnceParts links).2

/-- claimedCandidates restates the spec's words for the candidate set
(spec-side definition, for comparison with `searchOnceCandidates`):
the links containing `linkedin.com/in/` in original order, followed by
the links containing `linkedin.com/` but not the personal pattern, in
original order — with no mention of trimming. -/
def claimedCandidates (links : List String) : List String :=
  links.filter (fun l => strContainsSub l "linkedin.com/in/") ++
    links.filter
      (fun l => strContainsSub l "linkedin.com/" && !strContainsSub l "linkedin.com/in/")

/-- searchOnceModel is `searchOnce` over the search oracle: either the
oracle's failure, or the candidate extraction of the decoded links. -/
def searchOnceModel (rawF : String → Except SearchError (List String))
    (query : String) : Except SearchError (List String) :=
  match rawF query with
  | .error e => .error e
  | .ok links => .ok (searchOnceCandidates links)

/-- buildQueries is the query-variant construction of
`findLinkedInCandidates`: quoted name and company with the site
restriction (only when both are non-blank after trimming), then the
quoted bare name, then the unquoted bare name. -/
def buildQueries (p : Profile) : List String :=
  (if goTrimSpace p.Name ≠ "" ∧ goTrimSpace p.Company ≠ "" then
      [goQuote (goTrimSpace p.Name) ++ " " ++ goQuote (goTrimSpace p.Company) ++
        " site:linkedin.com"]
    else []) ++
    (if goTrimSpace p.Name ≠ "" then
        [goQuote (goTrimSpace p.Name) ++ " site:linkedin.com",
         goTrimSpace p.Name ++ " site:linkedin.com"]
      else [])

/-- tryQueries is the variant loop of `findLinkedInCandidates`: issue
one search per query in order; a search failure aborts; the first
non-empty candidate list is returned; an exhausted list yields no
candidates (the Go function returns `nil, nil` both for an empty
variant list and after the loop). -/
def tryQueries (rawF : String → Except SearchError (List String)) :
    List String → Except SearchError (List String)
  | [] => .ok []
  | q :: rest =>
    match searchOnceModel rawF q with
    | .error e => .error e
    | .ok urls => if urls.isEmpty then tryQueries rawF rest else .ok urls

/-- triedQueries is the trace of queries actually sent by the variant
loop, in order: it ends at the first query that fails or yields a
non-empty candidate list. -/
def triedQueries (rawF : String → Except SearchError (List String)) :
    List String → List String
  | [] => []
  | q :: rest =>
    match searchOnceModel rawF q with
    | .error _ => [q]
    | .ok urls => if urls.isEmpty then q :: triedQueries rawF rest else [q]

/-- findLinkedInCandidates mirrors the Go method of the same name. -/
def findLinkedInCandidates (rawF : String → Except SearchError (List String))
    (p : Profile) : Except SearchError (List String) :=
  tryQueries rawF (buildQueries p)

/-- skipProfile is the per-profile skip test of `EnrichProfiles`: the
profile already has a LinkedIn URL, or its trimmed name is empty. -/
def skipProfile (p : Profile) : Bool :=
  p.LinkedInURL != "" || goTrimSpace p.Name == ""

/-- applyCandidates is the assignment step of `EnrichProfiles`: with no
candidate the profile is unchanged; otherwise the first candidate
becomes the LinkedIn URL, and the remaining candidates replace
`PossibleLinkedInURLs` only when there are at least two candidates. -/
def applyCandidates (p : Profile) (urls : List String) : Profile :=
  match urls with
  | [] => p
  | u :: rest =>
    { p with
      LinkedInURL := u,
      PossibleLinkedInURLs := if rest.isEmpty then p.PossibleLinkedInURLs else rest }

/-- wrapSearchError is the `fmt.Errorf` wrapping in `EnrichProfiles`:
the failing profile's quoted name and id prefixed to the cause. -/
def wrapSearchError (p : Profile) (e : SearchError) : SearchError :=
  ⟨"search error for " ++ goQuote p.Name ++ " (" ++ p.ID ++ "): " ++ e.msg⟩

/-- enrichOne is one iteration of the `EnrichProfiles` loop: skipped
profiles pass through unchanged; otherwise the candidate search either
fails (with the wrapped error) or its result is applied. -/
def enrichOne (rawF : String → Except SearchError (List String))
    (p : Profile) : Except SearchError Profile :=
  if skipProfile p then .ok p
  else
    match findLinkedInCandidates rawF p with
    | .error e => .error (wrapSearchError p e)
    | .ok urls => .ok (applyCandidates p urls)

/-- enrichResult is the profile the loop stores for one input profile
when its iteration does not fail (spec-side helper). -/
def enrichResult (rawF : String → Except SearchError (List String))
    (p : Profile) : Profile :=
  match enrichOne rawF p with
  | .ok p' => p'
  | .error _ => p

/-- enrichLoop is the loop of `EnrichProfiles` over the copied slice:
on the first failing iteration it stops and returns the slice with the
failing and all later profiles unchanged, together with the error;
otherwise every profile is replaced by its enrichment result. -/
def enrichLoop (rawF : String → Except SearchError (List String)) :
    List Profile → List Profile × Option SearchError
  | [] => ([], none)
  | p :: rest =>
    match enrichOne rawF p with
    | .error e => (p :: rest, some e)
    | .ok p' =>
      let r := enrichLoop rawF rest
      (p' :: r.1, r.2)

/-- enrichProfiles mirrors `Matcher.EnrichProfiles`: a disabled matcher
(missing search key or engine id) returns the input unchanged with no
error; otherwise the loop runs. The Go `(out, err)` pair is the
returned pair, `err == nil` being `none`. -/
def enrichProfiles (enabled : Bool)
    (rawF : String → Except SearchError (List String)) (ps : List Profile) :
    List Profile × Option SearchError :=
  if enabled then enrichLoop rawF ps else (ps, none)

/-- enrichCalls is the trace of search queries issued by the loop, as
pairs of the profile being enriched and the query sent, in order:
skipped profiles contribute nothing, a failing profile's queries are
the last ones issued. -/
def enrichCalls (rawF : String → Except SearchError (List String)) :
    List Profile → List (Profile × String)
  | [] => []
  | p :: rest =>
    if skipProfile p then enrichCalls rawF rest
    else
      let tq := (triedQueries rawF (buildQueries p)).map (fun q => (p, q))
      match findLinkedInCandidates rawF p with
      | .error _ => tq
      | .ok _ => tq ++ enrichCalls rawF rest

/-- enrichProfilesCalls is the query trace of `enrichProfiles`: a
disabled matcher issues no search at all. -/
def enrichProfilesCalls (enabled : Bool)
    (rawF : String → Except SearchError (List String)) (ps : List Profile) :
    List (Profile × String) :=
  if enabled then enrichCalls rawF ps else []

/-- maskEnrichable clears the two fields enrichment may write (spec-side
helper for the frame claims: everything outside the mask is preserved). -/
def maskEnrichable (p : Profile) : Profile :=
  { p with LinkedInURL := "", PossibleLinkedInURLs := [] }

/-! ### Theorems -/

lemma strContainsSub_empty_in : strContainsSub "" "linkedin.com/in/" = false := by
  decide

lemma strContainsSub_empty_base : strContainsSub "" "linkedin.com/" = false := by
  decide

/-- searchOnceParts computes exactly the two filters of the trimmed links. -/
lemma searchOnceParts_eq (links : List String) :
    searchOnceParts links =
      ((links.map goTrimSpace).filter (fun l => strContainsSub l "linkedin.com/in/"),
       (links.map goTrimSpace).filter
         (fun l => strContainsSub l "linkedin.com/" && !strContainsSub l "linkedin.com/in/")) := by
  induction links with
  | nil => rfl
  | cons link rest ih =>
    simp only [searchOnceParts, List.map_cons, List.filter_cons, ih]
    by_cases h0 : goTrimSpace link = ""
    · rw [h0]
      simp [strContainsSub_empty_in, strContainsSub_empty_base]
    · by_cases h1 : strContainsSub (goTrimSpace link) "linkedin.com/in/"
      · simp [h0, h1]
      · by_cases h2 : strContainsSub (goTrimSpace link) "linkedin.com/"
        · simp [h0, h1, h2]
        · simp [h0, h1, h2]

/-- Claim C1, counterexample: the claim states the candidate list is the
partition of the result links themselves, but `searchOnce` trims each
link before classifying and collecting it, so for a link carrying
leading whitespace the produced candidate differs from the link. -/
theorem c1_counterexample :
    searchOnceCandidates [" https://linkedin.com/in/y"] ≠
      claimedCandidates [" https://linkedin.com/in/y"] := by
  decide

/-- Claim C1 (amended): for every search-result list, the candidate list
produced by one search attempt is the partition (personal pattern first,
then other `linkedin.com/` links, each in original relative order) of
the whitespace-trimmed links; and on the concrete input of the claim the
candidate order is as stated. -/
theorem c1_candidate_partition :
    (∀ links : List String,
        searchOnceCandidates links = claimedCandidates (links.map goTrimSpace)) ∧
      searchOnceCandidates
          ["https://linkedin.com/company/x", "https://linkedin.com/in/y",
           "https://linkedin.com/in/z"] =
        ["https://linkedin.com/in/y", "https://linkedin.com/in/z",
         "https://linkedin.com/company/x"] := by
  constructor
  · intro links
    rw [searchOnceCandidates, searchOnceParts_eq, claimedCandidates]
  · decide

/-- Claim C3: for every page size and every decoded listing response,
`ListProfiles` sets the continuation flag to true when the response
holds exactly `pageSize` items and to false when it holds fewer. -/
theorem c3_hasMore_heuristic :
    ∀ (resp : AttendeesListResponse) (s : Int),
      ((resp.data.length : Int) = s → (listProfilesResult resp s).hasNext = true) ∧
        ((resp.data.length : Int) < s → (listProfilesResult resp s).hasNext = false) := by
  intro resp s
  constructor
  · intro h
    simp [listProfilesResult, h]
  · intro h
    simp only [listProfilesResult, beq_eq_false_iff_ne, ne_eq]
    omega

/-- Witness for claim C3: a two-item response at page size two continues,
a one-item response at page size two does not. -/
theorem c3_hasMore_heuristic_witness :
    (listProfilesResult ⟨[⟨"a"⟩, ⟨"b"⟩]⟩ 2).hasNext = true ∧
      (listProfilesResult ⟨[⟨"a"⟩]⟩ 2).hasNext = false :=
  ⟨(c3_hasMore_heuristic ⟨[⟨"a"⟩, ⟨"b"⟩]⟩ 2).1 (by decide),
   (c3_hasMore_heuristic ⟨[⟨"a"⟩]⟩ 2).2 (by decide)⟩

/-- Claim C8: when no entry of the `included` list has type `"user"`
and the primary record's referenced user id, the detail mapping returns
the Profile holding only the primary id, every other field empty. -/
theorem c8_detail_mapping_no_user :
    ∀ resp : AttendeeDetailResponse,
      (∀ inc ∈ resp.included, ¬(inc.type = "user" ∧ inc.id = resp.data.userData.id)) →
      mapBrellaDetailToProfile resp = stubProfile resp.data.id := by
  intro resp h
  unfold mapBrellaDetailToProfile
  by_cases hu : resp.data.userData.id = ""
  · simp [hu]
  · have hnone : resp.included.find?
        (fun inc => inc.type == "user" && inc.id == resp.data.userData.id) = none := by
      rw [List.find?_eq_none]
      intro inc hmem
      have := h inc hmem
      simp only [Bool.and_eq_true, beq_iff_eq]
      intro hc
      exact this ⟨hc.1, hc.2⟩
    simp [hu, hnone]

/-- Witness for claim C8: a payload whose only included entry has a
non-`"user"` type maps to the id-only Profile. -/
theorem c8_detail_mapping_no_user_witness :
    mapBrellaDetailToProfile
        ⟨⟨"7", "attendee", ⟨"42", "user"⟩⟩,
         [⟨"42", "speaker", ⟨"A", "B", "T", "C", "L", "X", "W", "Z", []⟩⟩]⟩ =
      stubProfile "7" :=
  c8_detail_mapping_no_user
    ⟨⟨"7", "attendee", ⟨"42", "user"⟩⟩,
     [⟨"42", "speaker", ⟨"A", "B", "T", "C", "L", "X", "W", "Z", []⟩⟩]⟩
    (by decide)

/-- fetchDetails with a never-failing detail oracle returns the detail
results of the non-empty-id stubs, in listing order. -/
lemma fetchDetails_ok (detailF : String → Profile) (stubs : List Profile) :
    fetchDetails (fun id => .ok (detailF id)) stubs =
      .ok ((stubs.filter (fun stub => stub.ID != "")).map (fun stub => detailF stub.ID)) := by
  induction stubs with
  | nil => rfl
  | cons stub rest ih =>
    by_cases h : stub.ID = ""
    · simp [fetchDetails, h, List.filter_cons, ih]
    · simp [fetchDetails, h, List.filter_cons, ih]

/-- walkPages with all page fetches succeeding and a never-failing
detail oracle returns the concatenation, over the pages it processes,
of the per-page detail expansions. -/
lemma walkPages_ok (detailF : String → Profile) :
    ∀ (pages : List ListProfilesResult) (page : Nat) (maxPages : Int),
      walkPages (fun id => .ok (detailF id)) (pages.map Except.ok) page maxPages =
        .ok (((processedPages maxPages pages page).map (pageFetchedProfiles detailF)).flatten) := by
  intro pages
  induction pages with
  | nil => intro page maxPages; rfl
  | cons res rest ih =>
    intro page maxPages
    simp only [List.map_cons, walkPages, processedPages]
    by_cases hstop : 0 < maxPages ∧ maxPages < (page : Int)
    · simp [hstop]
    · by_cases hempty : res.profiles.isEmpty
      · simp [hstop, hempty]
      · simp only [hstop, if_false, hempty, fetchDetails_ok detailF]
        by_cases hnext : res.hasNext
        · simp [hnext, ih (page + 1) maxPages, pageFetchedProfiles]
        · simp [hnext, pageFetchedProfiles]

/-- Every attendee id passed to the detail oracle while expanding one
page's stubs is non-empty. -/
lemma fetchDetailCalls_ne_empty (detailF : String → Except String Profile) :
    ∀ (stubs : List Profile) (id : String),
      id ∈ fetchDetailCalls detailF stubs → id ≠ "" := by
  intro stubs
  induction stubs with
  | nil => intro id h; simp [fetchDetailCalls] at h
  | cons stub rest ih =>
    intro id h
    by_cases hid : stub.ID = ""
    · rw [fetchDetailCalls, if_pos hid] at h
      exact ih id h
    · rw [fetchDetailCalls, if_neg hid] at h
      cases hdf : detailF stub.ID with
      | error e =>
        rw [hdf] at h
        simp only [List.mem_singleton] at h
        exact h ▸ hid
      | ok p =>
        rw [hdf] at h
        rcases List.mem_cons.mp h with h0 | hrest
        · exact h0 ▸ hid
        · exact ih id hrest

/-- Every attendee id passed to the detail oracle during the walk is
non-empty. -/
lemma walkDetailCalls_ne_empty (detailF : String → Except String Profile) :
    ∀ (responses : List (Except String ListProfilesResult)) (page : Nat)
      (maxPages : Int) (id : String),
      id ∈ walkDetailCalls detailF responses page maxPages → id ≠ "" := by
  intro responses
  induction responses with
  | nil => intro page maxPages id h; simp [walkDetailCalls] at h
  | cons r rest ih =>
    intro page maxPages id h
    have hunf : walkDetailCalls detailF (r :: rest) page maxPages =
        if 0 < maxPages ∧ maxPages < (page : Int) then []
        else
          match r with
          | .error _ => []
          | .ok res =>
            if res.profiles.isEmpty then []
            else
              match fetchDetails detailF res.profiles with
              | .error _ => fetchDetailCalls detailF res.profiles
              | .ok _ =>
                if res.hasNext then
                  fetchDetailCalls detailF res.profiles ++
                    walkDetailCalls detailF rest (page + 1) maxPages
                else fetchDetailCalls detailF res.profiles := rfl
    rw [hunf] at h
    by_cases hstop : 0 < maxPages ∧ maxPages < (page : Int)
    · rw [if_pos hstop] at h; simp at h
    · rw [if_neg hstop] at h
      cases r with
      | error e => simp at h
      | ok res =>
        simp only at h
        by_cases hempty : res.profiles.isEmpty
        · rw [if_pos hempty] at h; simp at h
        · rw [if_neg hempty] at h
          cases hfd : fetchDetails detailF res.profiles with
          | error e =>
            rw [hfd] at h
            exact fetchDetailCalls_ne_empty detailF res.profiles id h
          | ok ps =>
            rw [hfd] at h
            by_cases hnext : res.hasNext
            · rw [if_pos hnext] at h
              rcases List.mem_append.mp h with h1 | h2
              · exact fetchDetailCalls_ne_empty detailF res.profiles id h1
              · exact ih (page + 1) maxPages id h2
            · rw [if_neg hnext] at h
              exact fetchDetailCalls_ne_empty detailF res.profiles id h

/-- Claim C2: with every fetch succeeding, the Walker's output is the
concatenation, in page order over the pages it processes, of the
detail-fetch results of the stubs with a non-empty identifier, in
per-page listing order; and (for arbitrary, also failing, oracles) the
Walker never issues a detail fetch for a stub with an empty
identifier. -/
theorem c2_walker_output_order :
    (∀ (detailF : String → Profile) (pages : List ListProfilesResult) (maxPages : Int),
        walkPages (fun id => .ok (detailF id)) (pages.map Except.ok) 1 maxPages =
          .ok (((processedPages maxPages pages 1).map (pageFetchedProfiles detailF)).flatten)) ∧
      (∀ (detailF : String → Except String Profile)
          (responses : List (Except String ListProfilesResult)) (page : Nat)
          (maxPages : Int) (id : String),
          id ∈ walkDetailCalls detailF responses page maxPages → id ≠ "") :=
  ⟨fun detailF pages maxPages => walkPages_ok detailF pages 1 maxPages,
   fun detailF responses page maxPages id h =>
     walkDetailCalls_ne_empty detailF responses page maxPages id h⟩

/-- Witness for claim C2: a two-page scenario (page 1 lists ids "a",
an empty id, and "b" and continues; page 2 lists "c" and stops) yields
the detail profiles of "a", "b", "c" in order, and the id "a" issued
during that walk is non-empty. -/
theorem c2_walker_output_order_witness :
    walkPages (fun id => .ok (stubProfile id))
        ([⟨[stubProfile "a", stubProfile "", stubProfile "b"], true⟩,
          ⟨[stubProfile "c"], false⟩].map Except.ok) 1 0 =
      .ok (((processedPages 0
          [⟨[stubProfile "a", stubProfile "", stubProfile "b"], true⟩,
           ⟨[stubProfile "c"], false⟩] 1).map
        (pageFetchedProfiles (fun id => stubProfile id))).flatten) ∧
      "a" ≠ "" :=
  ⟨c2_walker_output_order.1 (fun id => stubProfile id)
      [⟨[stubProfile "a", stubProfile "", stubProfile "b"], true⟩,
       ⟨[stubProfile "c"], false⟩] 0,
   c2_walker_output_order.2 (fun id => .ok (stubProfile id))
      ([⟨[stubProfile "a", stubProfile "", stubProfile "b"], true⟩,
        ⟨[stubProfile "c"], false⟩].map Except.ok) 1 0 "a" (by decide)⟩

/-- Expanding one page's stubs fails with `e` exactly when `e` is the
first failing detail call of that page. -/
lemma fetchDetails_error_iff (detailF : String → Except String Profile) :
    ∀ (stubs : List Profile) (e : WalkError),
      fetchDetails detailF stubs = .error e ↔
        firstDetailFailure detailF stubs = some e := by
  intro stubs
  induction stubs with
  | nil => intro e; simp [fetchDetails, firstDetailFailure]
  | cons stub rest ih =>
    intro e
    by_cases hid : stub.ID = ""
    · rw [fetchDetails, firstDetailFailure, if_pos hid, if_pos hid]
      exact ih e
    · rw [fetchDetails, firstDetailFailure, if_neg hid, if_neg hid]
      cases hdf : detailF stub.ID with
      | error e0 => simp
      | ok p =>
        cases hfr : fetchDetails detailF rest with
        | error e1 =>
          have h1 := (ih e1).mp hfr
          rw [h1]
          simp
        | ok ps =>
          have hnone : firstDetailFailure detailF rest = none := by
            cases hopt : firstDetailFailure detailF rest with
            | none => rfl
            | some e2 =>
              rw [(ih e2).mpr hopt] at hfr
              cases hfr
          simp [hnone]

/-- Claim C9: the Walker's result is the error `e` exactly when `e` is
the first failing list fetch or detail fetch it encounters; in the
error case the `Except` result carries no profile list, mirroring the
Go `return nil, err` that discards all profiles collected so far. -/
theorem c9_walker_fail_fast :
    ∀ (detailF : String → Except String Profile)
      (responses : List (Except String ListProfilesResult)) (page : Nat)
      (maxPages : Int) (e : WalkError),
      walkPages detailF responses page maxPages = .error e ↔
        firstWalkFailure detailF responses page maxPages = some e := by
  intro detailF responses
  induction responses with
  | nil => intro page maxPages e; simp [walkPages, firstWalkFailure]
  | cons r rest ih =>
    intro page maxPages e
    have hwunf : walkPages detailF (r :: rest) page maxPages =
        if 0 < maxPages ∧ maxPages < (page : Int) then .ok []
        else
          match r with
          | .error e0 => .error (.listing page e0)
          | .ok res =>
            if res.profiles.isEmpty then .ok []
            else
              match fetchDetails detailF res.profiles with
              | .error e0 => .error e0
              | .ok ps =>
                if res.hasNext then
                  match walkPages detailF rest (page + 1) maxPages with
                  | .error e0 => .error e0
                  | .ok more => .ok (ps ++ more)
                else .ok ps := rfl
    have hfunf : firstWalkFailure detailF (r :: rest) page maxPages =
        if 0 < maxPages ∧ maxPages < (page : Int) then none
        else
          match r with
          | .error e0 => some (.listing page e0)
          | .ok res =>
            if res.profiles.isEmpty then none
            else
              match firstDetailFailure detailF res.profiles with
              | some e0 => some e0
              | none =>
                if res.hasNext then
                  firstWalkFailure detailF rest (page + 1) maxPages
                else none := rfl
    rw [hwunf, hfunf]
    by_cases hstop : 0 < maxPages ∧ maxPages < (page : Int)
    · rw [if_pos hstop, if_pos hstop]
      simp
    · rw [if_neg hstop, if_neg hstop]
      cases r with
      | error e0 => simp
      | ok res =>
        simp only
        by_cases hempty : res.profiles.isEmpty
        · rw [if_pos hempty, if_pos hempty]
          simp
        · rw [if_neg hempty, if_neg hempty]
          cases hfd : fetchDetails detailF res.profiles with
          | error e0 =>
            have := (fetchDetails_error_iff detailF res.profiles e0).mp hfd
            rw [this]
            simp
          | ok ps =>
            have hnone : firstDetailFailure detailF res.profiles = none := by
              cases hopt : firstDetailFailure detailF res.profiles with
              | none => rfl
              | some e2 =>
                rw [(fetchDetails_error_iff detailF res.profiles e2).mpr hopt] at hfd
                cases hfd
            simp only [hnone]
            by_cases hnext : res.hasNext
            · rw [if_pos hnext, if_pos hnext]
              cases hw : walkPages detailF rest (page + 1) maxPages with
              | error e1 =>
                have := (ih (page + 1) maxPages e1).mp hw
                rw [this]
                simp
              | ok more =>
                have hwn : firstWalkFailure detailF rest (page + 1) maxPages = none := by
                  cases hopt : firstWalkFailure detailF rest (page + 1) maxPages with
                  | none => rfl
                  | some e2 =>
                    rw [(ih (page + 1) maxPages e2).mpr hopt] at hw
                    cases hw
                rw [hwn]
                simp
            · rw [if_neg hnext, if_neg hnext]
              simp

/-- A skipped profile passes through its enrichment iteration unchanged. -/
lemma enrichOne_skip (rawF : String → Except SearchError (List String))
    (p : Profile) (h : skipProfile p = true) : enrichOne rawF p = .ok p := by
  simp [enrichOne, h]

/-- A skipped profile's stored result is itself. -/
lemma enrichResult_skip (rawF : String → Except SearchError (List String))
    (p : Profile) (h : skipProfile p = true) : enrichResult rawF p = p := by
  simp [enrichResult, enrichOne_skip rawF p h]

/-- Applying candidates only writes the two enrichment fields. -/
lemma maskEnrichable_applyCandidates (p : Profile) (urls : List String) :
    maskEnrichable (applyCandidates p urls) = maskEnrichable p := by
  cases urls with
  | nil => rfl
  | cons u rest => rfl

/-- A successful enrichment iteration only writes the two enrichment
fields. -/
lemma maskEnrichable_enrichOne (rawF : String → Except SearchError (List String))
    (p p' : Profile) (h : enrichOne rawF p = .ok p') :
    maskEnrichable p' = maskEnrichable p := by
  unfold enrichOne at h
  by_cases hs : skipProfile p
  · rw [if_pos hs] at h
    cases h
    rfl
  · rw [if_neg hs] at h
    cases hf : findLinkedInCandidates rawF p with
    | error e => rw [hf] at h; cases h
    | ok urls =>
      rw [hf] at h
      cases h
      exact maskEnrichable_applyCandidates p urls

/-- The enrichment loop preserves everything outside the two
enrichment fields, elementwise. -/
lemma enrichLoop_mask (rawF : String → Except SearchError (List String)) :
    ∀ ps : List Profile,
      ((enrichLoop rawF ps).1).map maskEnrichable = ps.map maskEnrichable := by
  intro ps
  induction ps with
  | nil => rfl
  | cons p rest ih =>
    rw [enrichLoop]
    cases h : enrichOne rawF p with
    | error e => simp
    | ok p' =>
      simp only [List.map_cons, maskEnrichable_enrichOne rawF p p' h]
      rw [ih]

/-- Claim C10: whether or not a search error occurs, `EnrichProfiles`
returns a sequence of the input's length and order in which every
profile agrees with its input profile outside the `LinkedInURL` and
`PossibleLinkedInURLs` fields (`maskEnrichable` clears exactly those
two fields, so equality of the masked maps states that id, name,
title, company and location are returned unchanged). -/
theorem c10_enrich_frame :
    ∀ (enabled : Bool) (rawF : String → Except SearchError (List String))
      (ps : List Profile),
      ((enrichProfiles enabled rawF ps).1).map maskEnrichable =
        ps.map maskEnrichable := by
  intro enabled rawF ps
  cases enabled with
  | false => rfl
  | true => exact enrichLoop_mask rawF ps

/-- Elementwise, the loop's output is the input's enrichment result or
the input itself (the latter from the failing profile onward). -/
lemma enrichLoop_getElem? (rawF : String → Except SearchError (List String)) :
    ∀ (ps : List Profile) (i : Nat) (p : Profile), ps[i]? = some p →
      ((enrichLoop rawF ps).1)[i]? = some (enrichResult rawF p) ∨
        ((enrichLoop rawF ps).1)[i]? = some p := by
  intro ps
  induction ps with
  | nil => intro i p h; simp at h
  | cons p0 rest ih =>
    intro i p h
    rw [enrichLoop]
    cases he : enrichOne rawF p0 with
    | error e =>
      right
      simpa using h
    | ok p' =>
      cases i with
      | zero =>
        left
        simp only [List.getElem?_cons_zero, Option.some.injEq] at h
        subst h
        simp [enrichResult, he]
      | succ i =>
        simp only [List.getElem?_cons_succ] at h ⊢
        exact ih i p h

/-- Every search query the loop issues belongs to a non-skipped
profile. -/
lemma enrichCalls_not_skip (rawF : String → Except SearchError (List String)) :
    ∀ (ps : List Profile) (pq : Profile × String),
      pq ∈ enrichCalls rawF ps → skipProfile pq.1 = false := by
  intro ps
  induction ps with
  | nil => intro pq h; simp [enrichCalls] at h
  | cons p rest ih =>
    intro pq h
    rw [enrichCalls] at h
    by_cases hs : skipProfile p
    · rw [if_pos hs] at h
      exact ih pq h
    · rw [if_neg hs] at h
      cases hf : findLinkedInCandidates rawF p with
      | error e =>
        rw [hf] at h
        rcases List.mem_map.mp h with ⟨q, _, hq⟩
        rw [← hq]
        simpa using hs
      | ok urls =>
        rw [hf] at h
        rcases List.mem_append.mp h with h1 | h2
        · rcases List.mem_map.mp h1 with ⟨q, _, hq⟩
          rw [← hq]
          simpa using hs
        · exact ih pq h2

/-- Claim C5: a profile whose `LinkedInURL` is already non-empty or
whose trimmed name is empty (the `skipProfile` test) is returned by
`EnrichProfiles` unchanged at its position, and no search query is
ever issued for it. -/
theorem c5_enrich_skip :
    ∀ (enabled : Bool) (rawF : String → Except SearchError (List String))
      (ps : List Profile) (i : Nat) (p : Profile),
      ps[i]? = some p → skipProfile p = true →
      ((enrichProfiles enabled rawF ps).1)[i]? = some p ∧
        ∀ q : String, (p, q) ∉ enrichProfilesCalls enabled rawF ps := by
  intro enabled rawF ps i p hi hskip
  cases enabled with
  | false =>
    refine ⟨hi, ?_⟩
    intro q hq
    simp [enrichProfilesCalls] at hq
  | true =>
    constructor
    · rcases enrichLoop_getElem? rawF ps i p hi with h | h
      · rw [enrichResult_skip rawF p hskip] at h
        exact h
      · exact h
    · intro q hq
      have := enrichCalls_not_skip rawF ps (p, q) (by simpa [enrichProfilesCalls] using hq)
      rw [hskip] at this
      cases this

/-- Witness for claim C5: a profile that already has a LinkedIn URL is
returned unchanged and never searched for, even though the oracle
would answer. -/
theorem c5_enrich_skip_witness :
    ((enrichProfiles true (fun _ => .ok ["https://linkedin.com/in/y"])
          [⟨"1", "Ada", "", "", "", "https://linkedin.com/in/ada", []⟩]).1)[0]? =
        some ⟨"1", "Ada", "", "", "", "https://linkedin.com/in/ada", []⟩ ∧
      (⟨"1", "Ada", "", "", "", "https://linkedin.com/in/ada", []⟩, "Ada site:linkedin.com") ∉
        enrichProfilesCalls true (fun _ => .ok ["https://linkedin.com/in/y"])
          [⟨"1", "Ada", "", "", "", "https://linkedin.com/in/ada", []⟩] :=
  ⟨(c5_enrich_skip true (fun _ => .ok ["https://linkedin.com/in/y"])
      [⟨"1", "Ada", "", "", "", "https://linkedin.com/in/ada", []⟩] 0
      ⟨"1", "Ada", "", "", "", "https://linkedin.com/in/ada", []⟩
      (by decide) (by decide)).1,
   (c5_enrich_skip true (fun _ => .ok ["https://linkedin.com/in/y"])
      [⟨"1", "Ada", "", "", "", "https://linkedin.com/in/ada", []⟩] 0
      ⟨"1", "Ada", "", "", "", "https://linkedin.com/in/ada", []⟩
      (by decide) (by decide)).2 "Ada site:linkedin.com"⟩

/-- A failing enrichment iteration comes from a candidate-search
failure on a non-skipped profile, wrapped with the profile context. -/
lemma enrichOne_error_elim (rawF : String → Except SearchError (List String))
    (p : Profile) (e : SearchError) (h : enrichOne rawF p = .error e) :
    skipProfile p = false ∧
      ∃ e0, findLinkedInCandidates rawF p = .error e0 ∧ e = wrapSearchError p e0 := by
  unfold enrichOne at h
  by_cases hs : skipProfile p
  · rw [if_pos hs] at h
    cases h
  · rw [if_neg hs] at h
    cases hf : findLinkedInCandidates rawF p with
    | error e0 =>
      rw [hf] at h
      refine ⟨by simpa using hs, e0, rfl, ?_⟩
      injection h with h'
      exact h'.symm
    | ok urls =>
      rw [hf] at h
      cases h

/-- When the enrichment loop reports an error, the input splits into a
fully processed prefix, the failing profile, and an untouched suffix,
and the output is the enriched prefix followed by the unchanged
remainder. -/
lemma enrichLoop_error_decomp (rawF : String → Except SearchError (List String)) :
    ∀ (ps : List Profile) (e : SearchError), (enrichLoop rawF ps).2 = some e →
      ∃ pre p suf, ps = pre ++ p :: suf ∧
        (∀ q ∈ pre, ∃ q', enrichOne rawF q = .ok q') ∧
        enrichOne rawF p = .error e ∧
        (enrichLoop rawF ps).1 = pre.map (enrichResult rawF) ++ p :: suf := by
  intro ps
  induction ps with
  | nil => intro e h; simp [enrichLoop] at h
  | cons p0 rest ih =>
    intro e h
    cases he : enrichOne rawF p0 with
    | error e0 =>
      simp only [enrichLoop, he] at h
      obtain rfl : e0 = e := by simpa using h
      exact ⟨[], p0, rest, rfl, by simp, he, by simp [enrichLoop, he]⟩
    | ok p' =>
      simp only [enrichLoop, he] at h
      obtain ⟨pre, p, suf, hps, hpre, herr, hout⟩ := ih e h
      refine ⟨p0 :: pre, p, suf, by rw [hps]; rfl, ?_, herr, ?_⟩
      · intro q hq
        rcases List.mem_cons.mp hq with rfl | hq'
        · exact ⟨p', he⟩
        · exact hpre q hq'
      · simp [enrichLoop, he, hout, enrichResult]

/-- A profile whose iteration succeeds contributes its own block of
search calls, independently of what follows it. -/
lemma enrichCalls_cons_ok (rawF : String → Except SearchError (List String))
    (p : Profile) (rest : List Profile)
    (hok : ∃ p', enrichOne rawF p = .ok p') :
    enrichCalls rawF (p :: rest) = enrichCalls rawF [p] ++ enrichCalls rawF rest := by
  obtain ⟨p', hp⟩ := hok
  by_cases hs : skipProfile p
  · simp [enrichCalls, hs]
  · unfold enrichOne at hp
    rw [if_neg hs] at hp
    cases hf : findLinkedInCandidates rawF p with
    | error e =>
      rw [hf] at hp
      cases hp
    | ok urls =>
      simp [enrichCalls, hs, hf]

/-- The search-call trace distributes over a fully successful prefix. -/
lemma enrichCalls_append_all_ok (rawF : String → Except SearchError (List String)) :
    ∀ (pre tail : List Profile),
      (∀ q ∈ pre, ∃ q', enrichOne rawF q = .ok q') →
      enrichCalls rawF (pre ++ tail) =
        enrichCalls rawF pre ++ enrichCalls rawF tail := by
  intro pre
  induction pre with
  | nil => intro tail h; simp [enrichCalls]
  | cons p0 rest ih =>
    intro tail h
    have h0 := h p0 (by simp)
    rw [List.cons_append, enrichCalls_cons_ok rawF p0 (rest ++ tail) h0,
      ih tail (fun q hq => h q (by simp [hq])),
      enrichCalls_cons_ok rawF p0 rest h0, List.append_assoc]

/-- After a failing profile, no further search calls are issued. -/
lemma enrichCalls_error_head (rawF : String → Except SearchError (List String))
    (p : Profile) (suf : List Profile) (hs : skipProfile p = false)
    (e0 : SearchError) (hf : findLinkedInCandidates rawF p = .error e0) :
    enrichCalls rawF (p :: suf) = enrichCalls rawF [p] := by
  simp [enrichCalls, hs, hf]

/-- Claim C4: when a candidate search fails, `EnrichProfiles` stops at
the failing profile: the input splits into a prefix whose iterations
all succeeded, the failing profile (non-skipped, its search failing
with the cause that is wrapped into the returned error), and a suffix;
the returned sequence is the enriched prefix followed by the failing
profile and the suffix unchanged, and the search-call trace is that of
the prefix and the failing profile alone — no later profile is
processed. -/
theorem c4_enrich_fail_fast :
    ∀ (enabled : Bool) (rawF : String → Except SearchError (List String))
      (ps : List Profile) (e : SearchError),
      (enrichProfiles enabled rawF ps).2 = some e →
      ∃ pre p suf e0, ps = pre ++ p :: suf ∧
        skipProfile p = false ∧
        findLinkedInCandidates rawF p = .error e0 ∧
        e = wrapSearchError p e0 ∧
        (∀ q ∈ pre, ∃ q', enrichOne rawF q = .ok q') ∧
        (enrichProfiles enabled rawF ps).1 =
          pre.map (enrichResult rawF) ++ p :: suf ∧
        enrichProfilesCalls enabled rawF ps = enrichCalls rawF (pre ++ [p]) := by
  intro enabled rawF ps e h
  cases enabled with
  | false => simp [enrichProfiles] at h
  | true =>
    rw [show enrichProfiles true rawF ps = enrichLoop rawF ps from rfl] at h ⊢
    obtain ⟨pre, p, suf, hps, hpre, herr, hout⟩ := enrichLoop_error_decomp rawF ps e h
    obtain ⟨hs, e0, hf, he⟩ := enrichOne_error_elim rawF p e herr
    refine ⟨pre, p, suf, e0, hps, hs, hf, he, hpre, hout, ?_⟩
    rw [show enrichProfilesCalls true rawF ps = enrichCalls rawF ps from rfl, hps,
      enrichCalls_append_all_ok rawF pre (p :: suf) hpre,
      enrichCalls_append_all_ok rawF pre [p] hpre,
      enrichCalls_error_head rawF p suf hs e0 hf]

/-- Witness for claim C4: a single enrichable profile with an oracle
that always fails produces the wrapped error and the decomposition. -/
theorem c4_enrich_fail_fast_witness :
    ∃ pre p suf e0,
      ([⟨"1", "Ada", "", "", "", "", []⟩] : List Profile) = pre ++ p :: suf ∧
        skipProfile p = false ∧
        findLinkedInCandidates (fun _ => .error ⟨"quota"⟩) p = .error e0 ∧
        wrapSearchError ⟨"1", "Ada", "", "", "", "", []⟩ ⟨"quota"⟩ =
          wrapSearchError p e0 ∧
        (∀ q ∈ pre, ∃ q', enrichOne (fun _ => .error ⟨"quota"⟩) q = .ok q') ∧
        (enrichProfiles true (fun _ => .error ⟨"quota"⟩)
            [⟨"1", "Ada", "", "", "", "", []⟩]).1 =
          pre.map (enrichResult (fun _ => .error ⟨"quota"⟩)) ++ p :: suf ∧
        enrichProfilesCalls true (fun _ => .error ⟨"quota"⟩)
            [⟨"1", "Ada", "", "", "", "", []⟩] =
          enrichCalls (fun _ => .error ⟨"quota"⟩) (pre ++ [p]) :=
  c4_enrich_fail_fast true (fun _ => .error ⟨"quota"⟩)
    [⟨"1", "Ada", "", "", "", "", []⟩]
    (wrapSearchError ⟨"1", "Ada", "", "", "", "", []⟩ ⟨"quota"⟩) (by decide)

/-- Claim C6, counterexample: when the search results repeat a link,
the repeated candidate is both placed in `LinkedInURL` (as `urls[0]`)
and kept in `PossibleLinkedInURLs` (as part of `urls[1:]`), so
enrichment produces a profile whose `PossibleLinkedInURLs` contains
the value placed in `LinkedInURL`. -/
theorem c6_counterexample :
    ∃ p, p ∈ (enrichProfiles true
        (fun _ => .ok ["https://linkedin.com/in/y", "https://linkedin.com/in/y"])
        [⟨"1", "Ada", "", "", "", "", []⟩]).1 ∧
      p.LinkedInURL ∈ p.PossibleLinkedInURLs :=
  ⟨⟨"1", "Ada", "", "", "", "https://linkedin.com/in/y",
      ["https://linkedin.com/in/y"]⟩,
   by decide, by decide⟩

/-- Claim C6 (amended): enrichment never overwrites an already
non-empty `LinkedInURL` (such a profile passes through unchanged);
and when a non-skipped profile's candidate search succeeds with at
least two pairwise-distinct candidates, the produced profile's
`PossibleLinkedInURLs` (the remaining candidates) does not contain the
value placed in `LinkedInURL` (with a single candidate the field keeps
its input value, and with duplicate candidates the claim fails, as the
counterexample shows). -/
theorem c6_linkedin_url_invariant :
    ∀ (rawF : String → Except SearchError (List String)) (p : Profile),
      (p.LinkedInURL ≠ "" → enrichOne rawF p = .ok p) ∧
      (∀ (urls : List String) (p' : Profile), skipProfile p = false →
        findLinkedInCandidates rawF p = .ok urls → 1 < urls.length →
        urls.Nodup → enrichOne rawF p = .ok p' →
        p'.LinkedInURL ∉ p'.PossibleLinkedInURLs) := by
  intro rawF p
  constructor
  · intro h
    apply enrichOne_skip
    simp [skipProfile, h]
  · intro urls p' hs hf hlen hnodup he
    unfold enrichOne at he
    rw [if_neg (by simp [hs])] at he
    rw [hf] at he
    injection he with he'
    subst he'
    cases urls with
    | nil => simp at hlen
    | cons u rest =>
      have hne : rest.isEmpty = false := by
        cases rest with
        | nil => simp at hlen
        | cons v t => rfl
      simp only [applyCandidates, hne, Bool.false_eq_true, if_false]
      exact (List.nodup_cons.mp hnodup).1

/-- Witness for claim C6 (amended): a profile with a LinkedIn URL is
untouched, and with two distinct candidates the produced profile's
alternative list avoids the chosen URL. -/
theorem c6_linkedin_url_invariant_witness :
    enrichOne (fun _ => .ok ["https://linkedin.com/in/a", "https://linkedin.com/in/b"])
        ⟨"2", "Bob", "", "", "", "https://linkedin.com/in/bob", []⟩ =
      .ok ⟨"2", "Bob", "", "", "", "https://linkedin.com/in/bob", []⟩ ∧
      (⟨"1", "Ada", "", "", "", "https://linkedin.com/in/a",
          ["https://linkedin.com/in/b"]⟩ : Profile).LinkedInURL ∉
        (⟨"1", "Ada", "", "", "", "https://linkedin.com/in/a",
            ["https://linkedin.com/in/b"]⟩ : Profile).PossibleLinkedInURLs :=
  ⟨(c6_linkedin_url_invariant
      (fun _ => .ok ["https://linkedin.com/in/a", "https://linkedin.com/in/b"])
      ⟨"2", "Bob", "", "", "", "https://linkedin.com/in/bob", []⟩).1 (by decide),
   (c6_linkedin_url_invariant
      (fun _ => .ok ["https://linkedin.com/in/a", "https://linkedin.com/in/b"])
      ⟨"1", "Ada", "", "", "", "", []⟩).2
     ["https://linkedin.com/in/a", "https://linkedin.com/in/b"]
     ⟨"1", "Ada", "", "", "", "https://linkedin.com/in/a",
       ["https://linkedin.com/in/b"]⟩
     (by decide) (by rfl) (by decide) (by decide) (by rfl)⟩

/-- When every query before position `k` yields no candidate and the
query at `k` yields a non-empty candidate list, the variant loop
returns exactly that list and its trace is the first `k + 1` queries. -/
lemma tryQueries_first_success (rawF : String → Except SearchError (List String)) :
    ∀ (qs : List String) (k : Nat) (qk : String) (urls : List String),
      (∀ j q, j < k → qs[j]? = some q → searchOnceModel rawF q = .ok []) →
      qs[k]? = some qk → searchOnceModel rawF qk = .ok urls → urls ≠ [] →
      tryQueries rawF qs = .ok urls ∧
        triedQueries rawF qs = qs.take (k + 1) := by
  intro qs
  induction qs with
  | nil =>
    intro k qk urls hprev hk hqk hne
    simp at hk
  | cons q rest ih =>
    intro k qk urls hprev hk hqk hne
    have hie : ∀ us : List String, us ≠ [] → us.isEmpty = false := by
      intro us hus
      cases us with
      | nil => exact absurd rfl hus
      | cons a t => rfl
    cases k with
    | zero =>
      simp only [List.getElem?_cons_zero, Option.some.injEq] at hk
      subst hk
      constructor
      · simp [tryQueries, hqk, hie urls hne]
      · simp [triedQueries, hqk, hie urls hne]
    | succ k' =>
      have h0 : searchOnceModel rawF q = .ok [] :=
        hprev 0 q (Nat.succ_pos k') (by simp)
      simp only [List.getElem?_cons_succ] at hk
      obtain ⟨ht, htr⟩ := ih k' qk urls
        (fun j q' hj hq' => hprev (j + 1) q' (Nat.succ_lt_succ hj) (by simpa using hq'))
        hk hqk hne
      constructor
      · simp [tryQueries, h0, ht]
      · simp [triedQueries, h0, htr]

/-- Claim C7: for a profile with non-blank trimmed name the query
variants are, in order, the quoted-name-and-company variant (present
exactly when the trimmed company is non-blank), the quoted-name
variant and the unquoted-name variant, each with the site restriction;
the variants are tried in order, one search each, and the first
variant yielding at least one candidate ends the cascade: its
candidates are returned and the query trace stops at it. -/
theorem c7_variant_order_and_stop :
    ∀ (rawF : String → Except SearchError (List String)) (p : Profile),
      goTrimSpace p.Name ≠ "" →
      (buildQueries p =
        (if goTrimSpace p.Company = "" then []
          else
            [goQuote (goTrimSpace p.Name) ++ " " ++ goQuote (goTrimSpace p.Company) ++
              " site:linkedin.com"]) ++
          [goQuote (goTrimSpace p.Name) ++ " site:linkedin.com",
           goTrimSpace p.Name ++ " site:linkedin.com"]) ∧
      ∀ (k : Nat) (qk : String) (urls : List String),
        (∀ j q, j < k → (buildQueries p)[j]? = some q →
          searchOnceModel rawF q = .ok []) →
        (buildQueries p)[k]? = some qk →
        searchOnceModel rawF qk = .ok urls → urls ≠ [] →
        findLinkedInCandidates rawF p = .ok urls ∧
          triedQueries rawF (buildQueries p) = (buildQueries p).take (k + 1) := by
  intro rawF p hname
  constructor
  · by_cases hc : goTrimSpace p.Company = ""
    · simp [buildQueries, hname, hc]
    · simp [buildQueries, hname, hc]
  · intro k qk urls hprev hk hqk hne
    exact tryQueries_first_success rawF (buildQueries p) k qk urls hprev hk hqk hne

/-- Witness for claim C7: with name Ada and company Acme, the
name-and-company variant yields no candidate and the quoted-name
variant (position 1) yields one, so the cascade returns that
candidate and tries exactly the first two variants. -/
theorem c7_variant_order_and_stop_witness :
    findLinkedInCandidates
        (fun q => if q = "\"Ada\" \"Acme\" site:linkedin.com" then .ok []
          else .ok ["https://linkedin.com/in/ada"])
        ⟨"1", "Ada", "", "Acme", "", "", []⟩ =
      .ok ["https://linkedin.com/in/ada"] ∧
      triedQueries
          (fun q => if q = "\"Ada\" \"Acme\" site:linkedin.com" then .ok []
            else .ok ["https://linkedin.com/in/ada"])
          (buildQueries ⟨"1", "Ada", "", "Acme", "", "", []⟩) =
        (buildQueries ⟨"1", "Ada", "", "Acme", "", "", []⟩).take 2 :=
  (c7_variant_order_and_stop
      (fun q => if q = "\"Ada\" \"Acme\" site:linkedin.com" then .ok []
        else .ok ["https://linkedin.com/in/ada"])
      ⟨"1", "Ada", "", "Acme", "", "", []⟩ (by decide)).2
    1 "\"Ada\" site:linkedin.com" ["https://linkedin.com/in/ada"]
    (by
      intro j q hj hq
      have hj0 : j = 0 := by omega
      subst hj0
      rw [show (buildQueries ⟨"1", "Ada", "", "Acme", "", "", []⟩)[0]? =
          some "\"Ada\" \"Acme\" site:linkedin.com" from by decide] at hq
      obtain rfl := Option.some.inj hq
      rfl)
    (by decide) (by rfl) (by decide)

end Bitconf
